import Mathlib

/-!
Shallow embedding of the `DenseGrid` utility from `src/utils/dense_grid.rs`
(together with the `XY` coordinate type from `src/utils/geometry.rs`).

Modelling conventions:
  * `usize` becomes `Nat`, `i64` becomes `Int` (the values involved are far
    below the machine-word bounds, and no arithmetic in the modelled code
    relies on wrapping).
  * Rust `Vec<T>` becomes `List T`; `Option<&T>` becomes `Option T`
    (all element types used with the grid are `Copy`).
  * An operation that can panic (direct indexing `v[i]`, `Option::unwrap`)
    is modelled in `Option`, with `none` standing for the panic; an
    operation that cannot panic is modelled as a total function.
  * Iterators are modelled by the finite lists they produce.
-/

/-- The coordinate type `XY(pub i64, pub i64)` from `src/utils/geometry.rs`. -/
structure XY where
  x : Int
  y : Int
deriving DecidableEq, Repr

/-- Component-wise addition, `impl ops::Add for XY`. -/
instance : Add XY := ⟨fun a b => ⟨a.x + b.x, a.y + b.y⟩⟩

theorem XY.add_def (a b : XY) : a + b = ⟨a.x + b.x, a.y + b.y⟩ := rfl

/-- Modelled from the spec: the function `wrap_number` (imported by
`dense_grid.rs` from `crate::utils::geometry`) is absent from the sources
provided under `src/`.  The spec describes the wrapping of a neighbour
coordinate as "`coordinate mod dimension`, normalized to non-negative", so
we take the truncating remainder (Rust's `%` on `i64`) and add the modulus
when the remainder is negative, exactly as the sibling helper `index_wrap`
in `geometry.rs` does. -/
def wrap_number (n m : Int) : Int :=
  let w := n.tmod m
  if w < 0 then m + w else w

/-- `DenseGrid<T>` from `src/utils/dense_grid.rs`: a declared width, an
optional out-of-bounds filler, and the flat row-major cell buffer. -/
structure DenseGrid (T : Type) where
  width : Nat
  filler : Option T
  items : List T
deriving DecidableEq

/-- `UP`: `XY(0, -1)`. -/
def UP : XY := ⟨0, -1⟩

/-- `DOWN`: `XY(0, 1)`. -/
def DOWN : XY := ⟨0, 1⟩

/-- `LEFT`: `XY(-1, 0)`. -/
def LEFT : XY := ⟨-1, 0⟩

/-- `RIGHT`: `XY(1, 0)`. -/
def RIGHT : XY := ⟨1, 0⟩

namespace DenseGrid

variable {T : Type}

/-- `DenseGrid::height`: `self.items.len() / self.width` (integer
division on `usize`). -/
def height (g : DenseGrid T) : Nat :=
  g.items.length / g.width

/-- `DenseGrid::get`.  Out of bounds (or when the computed index is past
the end of a ragged buffer) the configured filler is returned; in bounds
the cell at `y * width + x` is returned. -/
def get (g : DenseGrid T) (xy : XY) : Option T :=
  if xy.x < 0 ∨ xy.y < 0 ∨ (g.width : Int) ≤ xy.x ∨ (g.height : Int) ≤ xy.y then
    g.filler
  else
    (g.items[(xy.y * (g.width : Int) + xy.x).toNat]?).or g.filler

/-- `DenseGrid::set_if_inbounds`.  The in-bounds branch performs a direct
buffer write `self.items[index] = value`, which in Rust panics when the
index is past the end of the buffer; `none` models that panic. -/
def set_if_inbounds (g : DenseGrid T) (xy : XY) (value : T) :
    Option (DenseGrid T) :=
  if 0 ≤ xy.x ∧ 0 ≤ xy.y ∧ xy.x < (g.width : Int) ∧ xy.y < (g.height : Int) then
    let index := (xy.y * (g.width : Int) + xy.x).toNat
    if index < g.items.length then
      some { g with items := g.items.set index value }
    else
      none
  else
    some g

/-- `DenseGrid::index_to_xy`: `XY((idx % width) as i64, (idx / width) as i64)`. -/
def index_to_xy (g : DenseGrid T) (idx : Nat) : XY :=
  ⟨((idx % g.width : Nat) : Int), ((idx / g.width : Nat) : Int)⟩

/-- `DenseGrid::rows_iter`: the slices `items[y*width .. (y+1)*width]` for
`y` in `0..height()` (always in range, since `(y+1)*width ≤ height*width ≤
items.len()`). -/
def rows_iter (g : DenseGrid T) : List (List T) :=
  (List.range g.height).map fun y => (g.items.drop (y * g.width)).take g.width

/-- Collecting an iterator of fallible lookups, where any failure is a
panic that aborts the whole collection (Rust `unwrap` inside `collect`). -/
def optionMapList (f : β → Option α) : List β → Option (List α)
  | [] => some []
  | b :: bs =>
    match f b with
    | none => none
    | some a => (optionMapList f bs).map (a :: ·)

/-- `DenseGrid::columns_iter`: for each `x` in `0..width`, the column
`(0..height).map(|y| self.get(XY(x, y)).unwrap())`; the `unwrap` panic is
modelled by `none`. -/
def columns_iter (g : DenseGrid T) : Option (List (List T)) :=
  optionMapList
    (fun x : Nat =>
      optionMapList (fun y : Nat => g.get ⟨(x : Int), (y : Int)⟩) (List.range g.height))
    (List.range g.width)

/-- `DenseGrid::range`: row-major traversal of the given coordinate ranges
(outer loop over `y_range`, inner over `x_range`), pairing each coordinate
with its `get`. -/
def range (g : DenseGrid T) (x_range y_range : List Int) : List (XY × Option T) :=
  (y_range.map fun y => x_range.map fun x => ((⟨x, y⟩ : XY), g.get ⟨x, y⟩)).flatten

/-- The inclusive integer interval `lo..=hi` as a list. -/
def intRangeIncl (lo hi : Int) : List Int :=
  (List.range (hi + 1 - lo).toNat).map fun i : Nat => lo + (i : Int)

/-- `DenseGrid::rect_range_inclusive`: sort the two corners on each axis
and traverse the inclusive bounding rectangle via `range`. -/
def rect_range_inclusive (g : DenseGrid T) (a b : XY) : List (XY × Option T) :=
  let min_x := min a.x b.x
  let max_x := max a.x b.x
  let min_y := min a.y b.y
  let max_y := max a.y b.y
  g.range (intRangeIncl min_x max_x) (intRangeIncl min_y max_y)

/-- Spec-side restatement of rectangular range iteration (§4.1 of the
spec): the pairs `(p, get p)` for every coordinate `p` of the inclusive
bounding rectangle of the two corners, enumerated row-major.  Kept separate
from `rect_range_inclusive` (which is translated from the source) so the
two can be compared. -/
def rectRowMajorSpec (g : DenseGrid T) (a b : XY) : List (XY × Option T) :=
  (intRangeIncl (min a.y b.y) (max a.y b.y)).flatMap fun y =>
    (intRangeIncl (min a.x b.x) (max a.x b.x)).map fun x =>
      ((⟨x, y⟩ : XY), g.get ⟨x, y⟩)

/-- `DenseGrid::wrap`: wrap each component with `wrap_number` by the
corresponding dimension. -/
def wrap (g : DenseGrid T) (p : XY) : XY :=
  ⟨wrap_number p.x (g.width : Int), wrap_number p.y (g.height : Int)⟩

/-- `DenseGrid::cardinal_neighbours_with_wrapping`: the four cardinal
offsets, each added to `pos`, wrapped, then looked up. -/
def cardinal_neighbours_with_wrapping (g : DenseGrid T) (pos : XY) :
    List (XY × Option T) :=
  [UP, DOWN, LEFT, RIGHT].map fun d =>
    let p := g.wrap (pos + d)
    (p, g.get p)

/-- Itertools `dedup`: collapse consecutive runs of equal elements. -/
def dedupConsec : List Nat → List Nat
  | [] => []
  | [a] => [a]
  | a :: b :: rest =>
    if a = b then dedupConsec (b :: rest) else a :: dedupConsec (b :: rest)

/-- `DenseGrid::from_columns`.  The length check is Rust's
`columns.iter().map(Vec::len).dedup().collect_vec().len()`; on success the
buffer is rebuilt row-major as `columns[x][y]` for `y` then `x`.  The
direct indexings `columns[0]`, `columns[x][y]` can in principle panic,
modelled by the outer `Option`. -/
def from_columns (columns : List (List T)) (filler : Option T) :
    Option (Except String (DenseGrid T)) :=
  match (dedupConsec (columns.map List.length)).length with
  | 0 => some (Except.error "no columns")
  | 1 =>
    match columns.head? with
    | none => none
    | some c0 =>
      (optionMapList
        (fun y =>
          optionMapList (fun x => (columns[x]?).bind fun col => col[y]?)
            (List.range columns.length))
        (List.range c0.length)).map
        fun rows =>
          Except.ok { width := columns.length, filler := filler, items := rows.flatten }
  | _ => some (Except.error "columns are not uniform")

/-- `DenseGrid::from_rows`.  Same uniform-length check as `from_columns`;
on success the width is the first row's length and the buffer is the
concatenation of the rows. -/
def from_rows (rows : List (List T)) (filler : Option T) :
    Option (Except String (DenseGrid T)) :=
  match (dedupConsec (rows.map List.length)).length with
  | 0 => some (Except.error "no rows")
  | 1 =>
    match rows.head? with
    | none => none
    | some r0 => some (Except.ok { width := r0.length, filler := filler, items := rows.flatten })
  | _ => some (Except.error "rows are not uniform")

/-- `str::trim` on a line of characters: strip whitespace from both ends. -/
def trimChars (l : List Char) : List Char :=
  ((l.dropWhile Char.isWhitespace).reverse.dropWhile Char.isWhitespace).reverse

/-- `DenseGrid::parse` over a block already split at the newlines: the width
is the trimmed first line's length and the buffer is every trimmed line's
characters through the cell parser.  No rectangularity validation. -/
def parse (lines : List (List Char)) (cellParser : Char → T) (filler : Option T) :
    DenseGrid T :=
  { width := (trimChars (lines.headD [])).length
    filler := filler
    items := ((lines.map trimChars).flatten).map cellParser }

end DenseGrid

/-! ## Helper lemmas -/

theorem tmod_neg_left (a b : Int) : (-a).tmod b = -(a.tmod b) := by
  rcases a with m | m <;> rcases b with n | n
  · rcases m with _ | k
    · simp
    · show (Int.negSucc k).tmod (Int.ofNat n) = -((Int.ofNat (k + 1)).tmod (Int.ofNat n))
      simp [Int.tmod]
  · rcases m with _ | k
    · simp
    · show (Int.negSucc k).tmod (Int.negSucc n) = -((Int.ofNat (k + 1)).tmod (Int.negSucc n))
      simp [Int.tmod]
  · show (Int.ofNat (m + 1)).tmod (Int.ofNat n) = -((Int.negSucc m).tmod (Int.ofNat n))
    simp [Int.tmod]
  · show (Int.ofNat (m + 1)).tmod (Int.negSucc n) = -((Int.negSucc m).tmod (Int.negSucc n))
    simp [Int.tmod]

theorem neg_lt_tmod (a : Int) {b : Int} (hb : 0 < b) : -b < a.tmod b := by
  rcases le_or_lt 0 a with ha | ha
  · have := Int.tmod_nonneg b ha
    omega
  · have h1 : a.tmod b = -((-a).tmod b) := by rw [tmod_neg_left]; ring
    have h2 : (-a).tmod b < b := Int.tmod_lt_of_pos (-a) hb
    omega

theorem tmod_emod (a b : Int) : a.tmod b % b = a % b := by
  have h := Int.tmod_add_tdiv a b
  have h2 : a % b = (a.tmod b + b * a.tdiv b) % b := by rw [h]
  rw [h2, Int.add_mul_emod_self_left]

theorem wrap_number_nonneg (n : Int) {m : Int} (hm : 0 < m) : 0 ≤ wrap_number n m := by
  have h1 := neg_lt_tmod n hm
  simp only [wrap_number]
  split <;> omega

theorem wrap_number_lt (n : Int) {m : Int} (hm : 0 < m) : wrap_number n m < m := by
  have h1 := Int.tmod_lt_of_pos n hm
  simp only [wrap_number]
  split <;> omega

theorem wrap_number_emod (n : Int) {m : Int} (_hm : 0 < m) :
    wrap_number n m % m = n % m := by
  have h1 := tmod_emod n m
  simp only [wrap_number]
  split
  · have ha : (m + n.tmod m) % m = (n.tmod m + m * 1) % m := by ring_nf
    rw [ha, Int.add_mul_emod_self_left]
    exact h1
  · exact h1

theorem wrap_number_eq_self {n m : Int} (h0 : 0 ≤ n) (hm : n < m) :
    wrap_number n m = n := by
  simp only [wrap_number]
  rw [Int.tmod_eq_of_lt h0 hm]
  rw [if_neg (by omega)]

theorem wrap_number_neg_one {m : Int} (hm : 0 < m) : wrap_number (-1) m = m - 1 := by
  have h1 : wrap_number (-1) m % m = (-1) % m := wrap_number_emod (-1) hm
  have h2 := wrap_number_nonneg (-1) hm
  have h3 := wrap_number_lt (-1) hm
  have h4 : ((-1) : Int) % m = m - 1 := by
    have ha : ((-1) : Int) % m = (-1 + m * 1) % m :=
      (Int.add_mul_emod_self_left (-1) m 1).symm
    have hb : (-1 + m * 1 : Int) = m - 1 := by ring
    rw [ha, hb, Int.emod_eq_of_lt (by omega) (by omega)]
  rw [h4] at h1
  have h5 : wrap_number (-1) m % m = wrap_number (-1) m := Int.emod_eq_of_lt h2 h3
  omega

namespace DenseGrid

variable {T : Type}

theorem height_mul_width_le (g : DenseGrid T) : g.height * g.width ≤ g.items.length :=
  Nat.div_mul_le_self _ _

theorem nat_index_lt {a b W H : Nat} (hb : b < W) (ha : a < H) : a * W + b < H * W := by
  calc a * W + b < a * W + W := Nat.add_lt_add_left hb _
    _ = (a + 1) * W := by ring
    _ ≤ H * W := Nat.mul_le_mul_right W ha

theorem int_index_toNat {x y : Int} (W : Nat) (hx0 : 0 ≤ x) (hy0 : 0 ≤ y) :
    (y * (W : Int) + x).toNat = y.toNat * W + x.toNat := by
  have hx := Int.toNat_of_nonneg hx0
  have hy := Int.toNat_of_nonneg hy0
  have : y * (W : Int) + x = ((y.toNat * W + x.toNat : Nat) : Int) := by
    push_cast
    rw [hx, hy]
  rw [this, Int.toNat_natCast]

theorem index_toNat_lt_of_inbounds {g : DenseGrid T} {x y : Int}
    (hx0 : 0 ≤ x) (hxw : x < (g.width : Int)) (hy0 : 0 ≤ y) (hyh : y < (g.height : Int)) :
    (y * (g.width : Int) + x).toNat < g.height * g.width := by
  rw [int_index_toNat g.width hx0 hy0]
  exact nat_index_lt (by omega) (by omega)

theorem index_toNat_lt_length {g : DenseGrid T} {x y : Int}
    (hx0 : 0 ≤ x) (hxw : x < (g.width : Int)) (hy0 : 0 ≤ y) (hyh : y < (g.height : Int)) :
    (y * (g.width : Int) + x).toNat < g.items.length :=
  Nat.lt_of_lt_of_le (index_toNat_lt_of_inbounds hx0 hxw hy0 hyh) g.height_mul_width_le

theorem get_eq_of_inbounds {g : DenseGrid T} {x y : Int}
    (hx0 : 0 ≤ x) (hxw : x < (g.width : Int)) (hy0 : 0 ≤ y) (hyh : y < (g.height : Int)) :
    g.get ⟨x, y⟩ = g.items[(y * (g.width : Int) + x).toNat]? := by
  have hlt := index_toNat_lt_length hx0 hxw hy0 hyh
  unfold get
  rw [if_neg (by simp only [not_or, not_lt, not_le]; omega)]
  rw [List.getElem?_eq_getElem hlt]
  rfl

theorem get_eq_filler_of_oob {g : DenseGrid T} {x y : Int}
    (h : x < 0 ∨ y < 0 ∨ (g.width : Int) ≤ x ∨ (g.height : Int) ≤ y) :
    g.get ⟨x, y⟩ = g.filler := by
  unfold get
  rw [if_pos h]

theorem get_nat_coords {g : DenseGrid T} {x y : Nat} (hx : x < g.width) (hy : y < g.height) :
    g.get ⟨(x : Int), (y : Int)⟩ = g.items[y * g.width + x]? := by
  rw [get_eq_of_inbounds (by positivity) (by exact_mod_cast hx) (by positivity)
        (by exact_mod_cast hy)]
  rw [int_index_toNat g.width (by positivity) (by positivity)]
  simp

end DenseGrid

namespace DenseGrid

theorem optionMapList_isSome {f : β → Option α} :
    ∀ {l : List β}, (∀ b ∈ l, (f b).isSome) → (optionMapList f l).isSome
  | [], _ => rfl
  | b :: bs, h => by
    have hb : (f b).isSome := h b (List.mem_cons_self b bs)
    have hbs := optionMapList_isSome (f := f) (l := bs) fun c hc => h c (List.mem_cons_of_mem b hc)
    simp only [optionMapList]
    cases hfb : f b with
    | none => rw [hfb] at hb; simp at hb
    | some a =>
      cases hrec : optionMapList f bs with
      | none => rw [hrec] at hbs; simp at hbs
      | some out => simp

theorem optionMapList_length {f : β → Option α} :
    ∀ {l : List β} {out : List α}, optionMapList f l = some out → out.length = l.length
  | [], out, h => by
    simp only [optionMapList] at h
    cases h
    rfl
  | b :: bs, out, h => by
    simp only [optionMapList] at h
    cases hfb : f b with
    | none => rw [hfb] at h; cases h
    | some a =>
      rw [hfb] at h
      cases hrec : optionMapList f bs with
      | none => rw [hrec] at h; cases h
      | some o =>
        rw [hrec] at h
        simp only [Option.map_some] at h
        cases h
        simp [optionMapList_length hrec]

theorem optionMapList_getElem {f : β → Option α} :
    ∀ {l : List β} {out : List α}, optionMapList f l = some out →
      ∀ i : Nat, out[i]? = (l[i]?).bind f
  | [], out, h, i => by
    simp only [optionMapList] at h
    cases h
    simp
  | b :: bs, out, h, i => by
    simp only [optionMapList] at h
    cases hfb : f b with
    | none => rw [hfb] at h; cases h
    | some a =>
      rw [hfb] at h
      cases hrec : optionMapList f bs with
      | none => rw [hrec] at h; cases h
      | some o =>
        rw [hrec] at h
        simp only [Option.map_some] at h
        cases h
        cases i with
        | zero => simp [hfb]
        | succ j => simpa using optionMapList_getElem hrec j

theorem dedupConsec_nil_iff : ∀ {l : List Nat}, dedupConsec l = [] ↔ l = []
  | [] => by simp [dedupConsec]
  | [a] => by simp [dedupConsec]
  | a :: b :: rest => by
    simp only [dedupConsec]
    constructor
    · intro h
      split at h
      · have := (dedupConsec_nil_iff (l := b :: rest)).mp h
        cases this
      · cases h
    · intro h
      cases h

theorem dedupConsec_length_one_iff :
    ∀ {a : Nat} {l : List Nat}, (dedupConsec (a :: l)).length = 1 ↔ ∀ b ∈ l, b = a
  | a, [] => by simp [dedupConsec]
  | a, b :: t => by
    simp only [dedupConsec]
    split
    · rename_i hab
      subst hab
      rw [dedupConsec_length_one_iff (a := a) (l := t)]
      constructor
      · intro h c hc
        rcases List.mem_cons.mp hc with h1 | h1
        · exact h1
        · exact h c h1
      · intro h c hc
        exact h c (List.mem_cons_of_mem a hc)
    · rename_i hab
      constructor
      · intro h
        exfalso
        have h2 : dedupConsec (b :: t) = [] := by
          cases hd : dedupConsec (b :: t) with
          | nil => rfl
          | cons x xs => rw [hd] at h; simp at h
        have := dedupConsec_nil_iff.mp h2
        cases this
      · intro h
        exfalso
        exact hab ((h b (List.mem_cons_self b t)).symm)

theorem dedupConsec_replicate {a : Nat} : ∀ {n : Nat}, 0 < n →
    dedupConsec (List.replicate n a) = [a]
  | 1, _ => by simp [dedupConsec]
  | n + 2, _ => by
    have h1 : List.replicate (n + 2) a = a :: a :: List.replicate n a := rfl
    have h2 : List.replicate (n + 1) a = a :: List.replicate n a := rfl
    rw [h1]
    simp only [dedupConsec, if_pos rfl]
    rw [← h2]
    exact dedupConsec_replicate (by omega)

theorem flatten_row_slices (l : List α) (w : Nat) :
    ∀ n : Nat, (((List.range n).map fun y => (l.drop (y * w)).take w).flatten) = l.take (n * w)
  | 0 => by simp
  | n + 1 => by
    rw [List.range_succ, List.map_append, List.flatten_append]
    rw [flatten_row_slices l w n]
    simp only [List.map_cons, List.map_nil, List.flatten_cons, List.flatten_nil,
      List.append_nil]
    rw [← List.take_add]
    congr 1
    ring

theorem mem_intRangeIncl {lo hi z : Int} : z ∈ intRangeIncl lo hi ↔ lo ≤ z ∧ z ≤ hi := by
  unfold intRangeIncl
  rw [List.mem_map]
  constructor
  · rintro ⟨i, hi1, rfl⟩
    rw [List.mem_range] at hi1
    omega
  · rintro ⟨h1, h2⟩
    exact ⟨(z - lo).toNat, List.mem_range.mpr (by omega), by omega⟩

end DenseGrid

namespace DenseGrid

variable {T : Type}

theorem rows_iter_length (g : DenseGrid T) : g.rows_iter.length = g.height := by
  simp [rows_iter]

theorem rows_iter_getElem (g : DenseGrid T) {y : Nat} (hy : y < g.height) :
    g.rows_iter[y]? = some ((g.items.drop (y * g.width)).take g.width) := by
  unfold rows_iter
  rw [List.getElem?_map, List.getElem?_range hy]
  rfl

theorem row_slice_length (g : DenseGrid T) {y : Nat} (hy : y < g.height) :
    ((g.items.drop (y * g.width)).take g.width).length = g.width := by
  have h1 : (y + 1) * g.width ≤ g.height * g.width :=
    Nat.mul_le_mul_right g.width (by omega)
  rw [Nat.succ_mul] at h1
  have h2 := g.height_mul_width_le
  simp only [List.length_take, List.length_drop]
  omega

theorem rows_iter_lengths (g : DenseGrid T) :
    g.rows_iter.map List.length = List.replicate g.height g.width := by
  unfold rows_iter
  rw [List.map_map]
  refine List.eq_replicate_iff.mpr ⟨by simp, ?_⟩
  intro b hb
  rcases List.mem_map.mp hb with ⟨y, hy, rfl⟩
  rw [List.mem_range] at hy
  exact g.row_slice_length hy

end DenseGrid

/-! ## Claim theorems -/

/-- C1: for every grid whose buffer length is an exact multiple of its
positive width and every coordinate `(x, y)` with `0 ≤ x < width` and
`0 ≤ y < height`, `get` returns the cell stored at buffer index
`y*width+x`; for every coordinate outside those bounds, `get` returns the
configured filler if one is set, and none ("absent") otherwise. -/
theorem DenseGrid.get_point_lookup_spec {T : Type} (g : DenseGrid T) (x y : Int)
    (hw : 0 < g.width) (hmul : g.items.length % g.width = 0) :
    ((0 ≤ x ∧ x < (g.width : Int) ∧ 0 ≤ y ∧ y < (g.height : Int)) →
      g.get ⟨x, y⟩ = g.items[(y * (g.width : Int) + x).toNat]? ∧
      ∃ hlt : (y * (g.width : Int) + x).toNat < g.items.length,
        g.get ⟨x, y⟩ = some (g.items.get ⟨(y * (g.width : Int) + x).toNat, hlt⟩)) ∧
    (¬(0 ≤ x ∧ x < (g.width : Int) ∧ 0 ≤ y ∧ y < (g.height : Int)) →
      g.get ⟨x, y⟩ = g.filler) := by
  constructor
  · rintro ⟨hx0, hxw, hy0, hyh⟩
    have heq := get_eq_of_inbounds hx0 hxw hy0 hyh
    have hlt := index_toNat_lt_length hx0 hxw hy0 hyh
    refine ⟨heq, hlt, ?_⟩
    rw [heq, List.getElem?_eq_getElem hlt]
    rfl
  · intro h
    exact get_eq_filler_of_oob (by omega)

/-- C1 witness: on the 2-wide grid `[10, 20, 30, 40]`, the in-bounds
coordinate `(1, 1)` reads buffer index `3`. -/
theorem DenseGrid.get_point_lookup_spec_witness :
    (⟨2, none, [10, 20, 30, 40]⟩ : DenseGrid Nat).get ⟨1, 1⟩ = some 40 := by
  have h := DenseGrid.get_point_lookup_spec (⟨2, none, [10, 20, 30, 40]⟩ : DenseGrid Nat)
    1 1 (by decide) (by decide)
  have h2 := (h.1 (by refine ⟨by decide, by decide, by decide, ?_⟩; decide)).1
  rw [h2]
  decide

/-- C2: for every grid and every coordinate, `get` returns a well-defined
result — a cell actually stored in the buffer, or the filler field
(`some filler` when configured, `none` meaning "absent") — and is a total
function, so it never panics. -/
theorem DenseGrid.get_total_well_defined {T : Type} (g : DenseGrid T) (xy : XY) :
    (∃ c, c ∈ g.items ∧ g.get xy = some c) ∨ g.get xy = g.filler := by
  obtain ⟨x, y⟩ := xy
  by_cases hc : x < 0 ∨ y < 0 ∨ (g.width : Int) ≤ x ∨ (g.height : Int) ≤ y
  · right
    exact get_eq_filler_of_oob hc
  · left
    have hx0 : 0 ≤ x := by omega
    have hy0 : 0 ≤ y := by omega
    have hxw : x < (g.width : Int) := by omega
    have hyh : y < (g.height : Int) := by omega
    have heq := get_eq_of_inbounds hx0 hxw hy0 hyh
    have hlt := index_toNat_lt_length hx0 hxw hy0 hyh
    refine ⟨g.items.get ⟨(y * (g.width : Int) + x).toNat, hlt⟩, List.get_mem _ _ hlt, ?_⟩
    rw [heq, List.getElem?_eq_getElem hlt]
    rfl

/-- C5: for every grid with positive width, `height` is the buffer length
divided (integer division) by the width; row iteration covers exactly the
first `height * width` buffer cells, and every in-bounds lookup index is
below `height * width`, so a trailing partial row of a ragged buffer is
invisible to both. -/
theorem DenseGrid.height_div_truncation {T : Type} (g : DenseGrid T) (hw : 0 < g.width) :
    g.height = g.items.length / g.width ∧
    g.rows_iter.flatten = g.items.take (g.height * g.width) ∧
    ∀ x y : Int, 0 ≤ x → x < (g.width : Int) → 0 ≤ y → y < (g.height : Int) →
      (y * (g.width : Int) + x).toNat < g.height * g.width := by
  refine ⟨rfl, ?_, ?_⟩
  · exact flatten_row_slices g.items g.width g.height
  · intro x y hx0 hxw hy0 hyh
    exact index_toNat_lt_of_inbounds hx0 hxw hy0 hyh

/-- C5 witness: the ragged 2-wide grid `[1, 2, 3]` has height `3 / 2 = 1`
and its row iteration sees only the cells `[1, 2]`. -/
theorem DenseGrid.height_div_truncation_witness :
    (⟨2, none, [1, 2, 3]⟩ : DenseGrid Nat).height = 1 ∧
    (⟨2, none, [1, 2, 3]⟩ : DenseGrid Nat).rows_iter.flatten = [1, 2] := by
  have h := DenseGrid.height_div_truncation (⟨2, none, [1, 2, 3]⟩ : DenseGrid Nat) (by decide)
  refine ⟨by decide, ?_⟩
  rw [h.2.1]
  decide

/-- C7: `set_if_inbounds` at any out-of-bounds coordinate is a panic-free
no-op: the whole grid (buffer, width and filler) is returned unchanged. -/
theorem DenseGrid.set_oob_noop {T : Type} (g : DenseGrid T) (xy : XY) (v : T)
    (h : ¬(0 ≤ xy.x ∧ 0 ≤ xy.y ∧ xy.x < (g.width : Int) ∧ xy.y < (g.height : Int))) :
    g.set_if_inbounds xy v = some g := by
  unfold set_if_inbounds
  rw [if_neg h]

/-- C7 witness: writing at `(-1, 0)` leaves the grid `[1, 2]` unchanged. -/
theorem DenseGrid.set_oob_noop_witness :
    (⟨2, none, [1, 2]⟩ : DenseGrid Nat).set_if_inbounds ⟨-1, 0⟩ 9 =
      some (⟨2, none, [1, 2]⟩ : DenseGrid Nat) :=
  DenseGrid.set_oob_noop (⟨2, none, [1, 2]⟩ : DenseGrid Nat) ⟨-1, 0⟩ 9 (by decide)

/-- C9: for every grid with positive width (ragged buffers included),
`set_if_inbounds` never panics: it always returns a grid, and whenever its
bounds check passes the computed buffer index is strictly below the buffer
length, so the direct write is in range. -/
theorem DenseGrid.set_inbounds_safe {T : Type} (g : DenseGrid T) (xy : XY) (v : T)
    (hw : 0 < g.width) :
    (g.set_if_inbounds xy v).isSome ∧
    ((0 ≤ xy.x ∧ 0 ≤ xy.y ∧ xy.x < (g.width : Int) ∧ xy.y < (g.height : Int)) →
      (xy.y * (g.width : Int) + xy.x).toNat < g.items.length) := by
  obtain ⟨x, y⟩ := xy
  by_cases hc : 0 ≤ x ∧ 0 ≤ y ∧ x < (g.width : Int) ∧ y < (g.height : Int)
  · obtain ⟨hx0, hy0, hxw, hyh⟩ := hc
    have hlt := index_toNat_lt_length hx0 hxw hy0 hyh
    constructor
    · unfold set_if_inbounds
      rw [if_pos ⟨hx0, hy0, hxw, hyh⟩]
      simp only
      rw [if_pos hlt]
      rfl
    · intro _
      exact hlt
  · constructor
    · unfold set_if_inbounds
      rw [if_neg hc]
      rfl
    · intro h
      exact absurd h hc

/-- C9 witness: on the ragged 2-wide grid `[1, 2, 3]` the write at `(1, 0)`
succeeds and its index `1` is inside the buffer. -/
theorem DenseGrid.set_inbounds_safe_witness :
    ((⟨2, none, [1, 2, 3]⟩ : DenseGrid Nat).set_if_inbounds ⟨1, 0⟩ 9).isSome = true ∧
    ((0 : Int) * 2 + 1).toNat < 3 := by
  have h := DenseGrid.set_inbounds_safe (⟨2, none, [1, 2, 3]⟩ : DenseGrid Nat)
    ⟨1, 0⟩ 9 (by decide)
  exact ⟨h.1, h.2 (by refine ⟨by decide, by decide, by decide, ?_⟩; decide)⟩

/-- C10: for every grid with positive width the coordinate-to-index map is
a bijection between in-bounds coordinates and indices below
`width * height`: `index_to_xy (y*width+x) = (x, y)` for in-bounds `(x, y)`;
conversely `index_to_xy idx = (x, y)` always satisfies
`y.toNat * width + x.toNat = idx`, and for `idx < width * height` the
resulting coordinate is in bounds. -/
theorem DenseGrid.index_xy_bijection {T : Type} (g : DenseGrid T) (hw : 0 < g.width) :
    (∀ x y : Nat, x < g.width → y < g.height →
      g.index_to_xy (y * g.width + x) = ⟨(x : Int), (y : Int)⟩) ∧
    (∀ idx : Nat,
      ((g.index_to_xy idx).y).toNat * g.width + ((g.index_to_xy idx).x).toNat = idx) ∧
    (∀ idx : Nat, idx < g.width * g.height →
      0 ≤ (g.index_to_xy idx).x ∧ (g.index_to_xy idx).x < (g.width : Int) ∧
      0 ≤ (g.index_to_xy idx).y ∧ (g.index_to_xy idx).y < (g.height : Int)) := by
  refine ⟨?_, ?_, ?_⟩
  · intro x y hx _hy
    have hmod : (y * g.width + x) % g.width = x := by
      rw [Nat.add_comm, Nat.mul_comm, Nat.add_mul_mod_self_left, Nat.mod_eq_of_lt hx]
    have hdiv : (y * g.width + x) / g.width = y := by
      rw [Nat.add_comm, Nat.mul_comm, Nat.add_mul_div_left _ _ hw, Nat.div_eq_of_lt hx,
        Nat.zero_add]
    unfold index_to_xy
    rw [hmod, hdiv]
  · intro idx
    unfold index_to_xy
    simp only [Int.toNat_natCast]
    have h := Nat.div_add_mod idx g.width
    rw [Nat.mul_comm] at h
    exact h
  · intro idx hidx
    simp only [index_to_xy]
    refine ⟨by positivity, ?_, by positivity, ?_⟩
    · exact_mod_cast Nat.mod_lt idx hw
    · exact_mod_cast Nat.div_lt_of_lt_mul hidx

/-- C10 witness: on a 3-wide grid with 6 cells, index `5` maps to `(2, 1)`
and back. -/
theorem DenseGrid.index_xy_bijection_witness :
    (⟨3, none, [0, 0, 0, 0, 0, 0]⟩ : DenseGrid Nat).index_to_xy (1 * 3 + 2) =
      ⟨(2 : Int), (1 : Int)⟩ ∧
    (((⟨3, none, [0, 0, 0, 0, 0, 0]⟩ : DenseGrid Nat).index_to_xy 5).y).toNat * 3 +
      (((⟨3, none, [0, 0, 0, 0, 0, 0]⟩ : DenseGrid Nat).index_to_xy 5).x).toNat = 5 := by
  have h := DenseGrid.index_xy_bijection (⟨3, none, [0, 0, 0, 0, 0, 0]⟩ : DenseGrid Nat)
    (by decide)
  exact ⟨h.1 2 1 (by decide) (by decide), h.2.1 5⟩


namespace DenseGrid

variable {T : Type}

theorem dedup_lengths_cons_uniform {a : List T} {t : List (List T)}
    (h : ∀ r ∈ t, r.length = a.length) :
    dedupConsec ((a :: t).map List.length) = [a.length] := by
  have hrep : (a :: t).map List.length = List.replicate (t.length + 1) a.length := by
    rw [List.map_cons]
    refine List.eq_replicate_iff.mpr ⟨by simp, ?_⟩
    intro b hb
    rcases List.mem_cons.mp hb with rfl | hb
    · rfl
    · rcases List.mem_map.mp hb with ⟨r, hr, rfl⟩
      exact h r hr
  rw [hrep]
  exact dedupConsec_replicate (by omega)

theorem from_rows_cons_uniform (a : List T) (t : List (List T)) (filler : Option T)
    (h : ∀ r ∈ t, r.length = a.length) :
    from_rows (a :: t) filler =
      some (Except.ok ⟨a.length, filler, (a :: t).flatten⟩) := by
  unfold from_rows
  rw [dedup_lengths_cons_uniform h]
  rfl

theorem dedup_lengths_cons_nonuniform {a : List T} {t : List (List T)}
    (h : ∃ r ∈ t, r.length ≠ a.length) :
    ∃ k, (dedupConsec ((a :: t).map List.length)).length = k + 2 := by
  have hlen1 : ¬((dedupConsec (a.length :: t.map List.length)).length = 1) := by
    rw [dedupConsec_length_one_iff]
    intro hall
    rcases h with ⟨r, hr, hne⟩
    exact hne (hall r.length (List.mem_map_of_mem List.length hr))
  have hlen0 : ¬((dedupConsec (a.length :: t.map List.length)).length = 0) := by
    intro hcon
    rw [List.length_eq_zero, dedupConsec_nil_iff] at hcon
    cases hcon
  rw [List.map_cons]
  exact ⟨(dedupConsec (a.length :: t.map List.length)).length - 2, by omega⟩

theorem from_rows_nonuniform (a : List T) (t : List (List T)) (filler : Option T)
    (h : ∃ r ∈ t, r.length ≠ a.length) :
    from_rows (a :: t) filler = some (Except.error "rows are not uniform") := by
  rcases dedup_lengths_cons_nonuniform h with ⟨k, hk⟩
  unfold from_rows
  rw [hk]
  rfl

theorem from_columns_nonuniform (a : List T) (t : List (List T)) (filler : Option T)
    (h : ∃ r ∈ t, r.length ≠ a.length) :
    from_columns (a :: t) filler = some (Except.error "columns are not uniform") := by
  rcases dedup_lengths_cons_nonuniform h with ⟨k, hk⟩
  unfold from_columns
  rw [hk]
  rfl

theorem from_columns_cons_uniform (c0 : List T) (t : List (List T)) (filler : Option T)
    (h : ∀ r ∈ t, r.length = c0.length) :
    ∃ out,
      optionMapList
        (fun y =>
          optionMapList (fun x => ((c0 :: t)[x]?).bind fun col => col[y]?)
            (List.range (c0 :: t).length))
        (List.range c0.length) = some out ∧
      from_columns (c0 :: t) filler =
        some (Except.ok ⟨(c0 :: t).length, filler, out.flatten⟩) := by
  have hsome :
      (optionMapList
        (fun y =>
          optionMapList (fun x => ((c0 :: t)[x]?).bind fun col => col[y]?)
            (List.range (c0 :: t).length))
        (List.range c0.length)).isSome := by
    apply optionMapList_isSome
    intro y hy
    rw [List.mem_range] at hy
    apply optionMapList_isSome
    intro x hx
    rw [List.mem_range] at hx
    cases x with
    | zero =>
      show (((c0 :: t)[0]?).bind fun col => col[y]?).isSome
      rw [List.getElem?_cons_zero]
      show ((c0[y]?).isSome)
      rw [List.getElem?_eq_getElem hy]
      rfl
    | succ k =>
      have hk : k < t.length := by simpa using hx
      show (((c0 :: t)[k + 1]?).bind fun col => col[y]?).isSome
      rw [List.getElem?_cons_succ, List.getElem?_eq_getElem hk]
      show (((t[k])[y]?).isSome)
      have hlen : (t[k]).length = c0.length := h _ (List.getElem_mem hk)
      rw [List.getElem?_eq_getElem (by omega)]
      rfl
  rcases Option.isSome_iff_exists.mp hsome with ⟨out, hout⟩
  refine ⟨out, hout, ?_⟩
  have hded : dedupConsec ((c0 :: t).map List.length) = [c0.length] :=
    dedup_lengths_cons_uniform h
  unfold from_columns
  rw [hded]
  show (optionMapList _ _).map _ = _
  rw [hout]
  rfl

end DenseGrid

/-- C4: for every batch, `from_rows` and `from_columns` return the
descriptive error value — with no panic and no partially-built grid — when
and only when the batch is empty or its sequences do not all share one
length; otherwise they return a grid. -/
theorem DenseGrid.reassembly_error_iff {T : Type} (batch : List (List T)) (filler : Option T) :
    (batch = [] →
      DenseGrid.from_rows batch filler = some (Except.error "no rows") ∧
      DenseGrid.from_columns batch filler = some (Except.error "no columns")) ∧
    ((batch ≠ [] ∧ ¬∃ n, ∀ r ∈ batch, r.length = n) →
      DenseGrid.from_rows batch filler = some (Except.error "rows are not uniform") ∧
      DenseGrid.from_columns batch filler = some (Except.error "columns are not uniform")) ∧
    ((batch ≠ [] ∧ ∃ n, ∀ r ∈ batch, r.length = n) →
      (∃ g, DenseGrid.from_rows batch filler = some (Except.ok g)) ∧
      ∃ g, DenseGrid.from_columns batch filler = some (Except.ok g)) := by
  cases batch with
  | nil =>
    refine ⟨fun _ => ⟨rfl, rfl⟩, ?_, ?_⟩
    · rintro ⟨hne, -⟩
      exact absurd rfl hne
    · rintro ⟨hne, -⟩
      exact absurd rfl hne
  | cons a t =>
    refine ⟨fun hcon => absurd hcon (List.cons_ne_nil a t), ?_, ?_⟩
    · rintro ⟨-, hnu⟩
      have h : ∃ r ∈ t, r.length ≠ a.length := by
        by_contra hc
        push_neg at hc
        apply hnu
        refine ⟨a.length, ?_⟩
        intro r hr
        rcases List.mem_cons.mp hr with rfl | hr
        · rfl
        · exact hc r hr
      exact ⟨from_rows_nonuniform a t filler h, from_columns_nonuniform a t filler h⟩
    · rintro ⟨-, n, hn⟩
      have ht : ∀ r ∈ t, r.length = a.length := by
        intro r hr
        rw [hn r (List.mem_cons_of_mem a hr), hn a (List.mem_cons_self a t)]
      refine ⟨⟨_, from_rows_cons_uniform a t filler ht⟩, ?_⟩
      rcases from_columns_cons_uniform a t filler ht with ⟨out, -, hfc⟩
      exact ⟨_, hfc⟩

/-- C4 witness: the batch `[[1], [2, 3]]` has rows of unequal length, so
both reassembly operations report their descriptive error. -/
theorem DenseGrid.reassembly_error_iff_witness :
    DenseGrid.from_rows [[1], [2, 3]] (none : Option Nat) =
      some (Except.error "rows are not uniform") ∧
    DenseGrid.from_columns [[1], [2, 3]] (none : Option Nat) =
      some (Except.error "columns are not uniform") := by
  have h := DenseGrid.reassembly_error_iff [[1], [2, 3]] (none : Option Nat)
  apply h.2.1
  refine ⟨by decide, ?_⟩
  rintro ⟨n, hn⟩
  have h1 := hn [1] (by simp)
  have h2 := hn [2, 3] (by simp)
  simp at h1 h2
  omega

/-- C6: for every grid with positive width and height, wrapping
cardinal-neighbour iteration looks up each of the four neighbour
coordinates only after wrapping it toroidally — every wrapped component is
non-negative, below its dimension and congruent to the unwrapped component
modulo the dimension — and in particular the wrapped lookup at `(-1, y)`
reads the same cell as the unwrapped lookup at `(width - 1, y)`. -/
theorem DenseGrid.wrapping_neighbours_toroidal {T : Type} (g : DenseGrid T) (pos : XY)
    (hw : 0 < g.width) (hh : 0 < g.height) :
    (g.cardinal_neighbours_with_wrapping pos =
      [UP, DOWN, LEFT, RIGHT].map fun d => (g.wrap (pos + d), g.get (g.wrap (pos + d)))) ∧
    (∀ p : XY, 0 ≤ (g.wrap p).x ∧ (g.wrap p).x < (g.width : Int) ∧
      (g.wrap p).x % (g.width : Int) = p.x % (g.width : Int) ∧
      0 ≤ (g.wrap p).y ∧ (g.wrap p).y < (g.height : Int) ∧
      (g.wrap p).y % (g.height : Int) = p.y % (g.height : Int)) ∧
    (∀ y : Int, 0 ≤ y → y < (g.height : Int) →
      g.get (g.wrap ⟨-1, y⟩) = g.get ⟨(g.width : Int) - 1, y⟩) := by
  have hw' : (0 : Int) < (g.width : Int) := by exact_mod_cast hw
  have hh' : (0 : Int) < (g.height : Int) := by exact_mod_cast hh
  refine ⟨rfl, ?_, ?_⟩
  · intro p
    exact ⟨wrap_number_nonneg _ hw', wrap_number_lt _ hw', wrap_number_emod _ hw',
      wrap_number_nonneg _ hh', wrap_number_lt _ hh', wrap_number_emod _ hh'⟩
  · intro y hy0 hyh
    have h1 : g.wrap ⟨-1, y⟩ = ⟨(g.width : Int) - 1, y⟩ := by
      simp only [wrap]
      rw [wrap_number_neg_one hw', wrap_number_eq_self hy0 hyh]
    rw [h1]

/-- C6 witness: on the 5x5 grid of cells `0..24`, the wrapped lookup at
`(-1, 0)` reads the same cell as the unwrapped lookup at `(4, 0)`. -/
theorem DenseGrid.wrapping_neighbours_toroidal_witness :
    (⟨5, none, List.range 25⟩ : DenseGrid Nat).get
        ((⟨5, none, List.range 25⟩ : DenseGrid Nat).wrap ⟨-1, 0⟩) =
      (⟨5, none, List.range 25⟩ : DenseGrid Nat).get ⟨(5 : Int) - 1, 0⟩ := by
  have h := DenseGrid.wrapping_neighbours_toroidal (⟨5, none, List.range 25⟩ : DenseGrid Nat)
    ⟨0, 0⟩ (by decide) (by decide)
  exact h.2.2 0 (by decide) (by decide)

/-- C8: `rect_range_inclusive` enumerates, row-major, exactly the pairs
`(p, get p)` for the coordinates `p` of the inclusive bounding rectangle
spanned by the two corners, and its output does not depend on the order of
the corners on either axis. -/
theorem DenseGrid.rect_range_row_major {T : Type} (g : DenseGrid T) (a b : XY) :
    g.rect_range_inclusive a b = DenseGrid.rectRowMajorSpec g a b ∧
    (∀ p v, (p, v) ∈ g.rect_range_inclusive a b ↔
      (min a.x b.x ≤ p.x ∧ p.x ≤ max a.x b.x ∧
       min a.y b.y ≤ p.y ∧ p.y ≤ max a.y b.y ∧ v = g.get p)) ∧
    g.rect_range_inclusive a b = g.rect_range_inclusive b a ∧
    g.rect_range_inclusive a b = g.rect_range_inclusive ⟨a.x, b.y⟩ ⟨b.x, a.y⟩ := by
  refine ⟨?_, ?_, ?_, ?_⟩
  · simp only [rect_range_inclusive, rectRowMajorSpec, range]
    rw [List.flatMap_def]
  · intro p v
    simp only [rect_range_inclusive, range]
    rw [List.mem_flatten]
    constructor
    · rintro ⟨row, hrow, hmem⟩
      rcases List.mem_map.mp hrow with ⟨yy, hyy, rfl⟩
      rcases List.mem_map.mp hmem with ⟨xx, hxx, heq⟩
      injection heq with h1 h2
      subst h1
      subst h2
      rcases mem_intRangeIncl.mp hxx with ⟨hx1, hx2⟩
      rcases mem_intRangeIncl.mp hyy with ⟨hy1, hy2⟩
      exact ⟨hx1, hx2, hy1, hy2, rfl⟩
    · rintro ⟨hx1, hx2, hy1, hy2, rfl⟩
      refine ⟨(intRangeIncl (min a.x b.x) (max a.x b.x)).map
          fun x => ((⟨x, p.y⟩ : XY), g.get ⟨x, p.y⟩), ?_, ?_⟩
      · exact List.mem_map.mpr ⟨p.y, mem_intRangeIncl.mpr ⟨hy1, hy2⟩, rfl⟩
      · exact List.mem_map.mpr ⟨p.x, mem_intRangeIncl.mpr ⟨hx1, hx2⟩, rfl⟩
  · simp only [rect_range_inclusive]
    rw [min_comm b.x a.x, max_comm b.x a.x, min_comm b.y a.y, max_comm b.y a.y]
  · simp only [rect_range_inclusive]
    rw [min_comm b.y a.y, max_comm b.y a.y]

namespace DenseGrid

variable {T : Type}

theorem slice_getElem {l : List T} {w y x : Nat} (hx : x < w) :
    ((l.drop (y * w)).take w)[x]? = l[y * w + x]? := by
  rw [List.getElem?_take, if_pos hx, List.getElem?_drop]

theorem from_rows_rows_iter (g : DenseGrid T) (hw : 0 < g.width)
    (hne : g.items ≠ []) (hmul : g.items.length % g.width = 0) :
    DenseGrid.from_rows g.rows_iter g.filler = some (Except.ok g) := by
  have hdvd : g.width ∣ g.items.length := Nat.dvd_of_mod_eq_zero hmul
  have hlen : g.height * g.width = g.items.length := by
    unfold height
    exact Nat.div_mul_cancel hdvd
  have hlenpos : 0 < g.items.length := List.length_pos.mpr hne
  have hh : 0 < g.height := by
    rcases Nat.eq_zero_or_pos g.height with h0 | h1
    · rw [h0, Nat.zero_mul] at hlen
      omega
    · exact h1
  have hflat : g.rows_iter.flatten = g.items := by
    unfold rows_iter
    rw [flatten_row_slices g.items g.width g.height, hlen]
    exact List.take_length g.items
  have hall : ∀ r ∈ g.rows_iter, r.length = g.width := by
    intro r hr
    unfold rows_iter at hr
    rcases List.mem_map.mp hr with ⟨y, hy, rfl⟩
    rw [List.mem_range] at hy
    exact g.row_slice_length hy
  rcases hrows : g.rows_iter with - | ⟨r0, rest⟩
  · exfalso
    have hl := g.rows_iter_length
    rw [hrows] at hl
    simp at hl
    omega
  · have hr0len : r0.length = g.width :=
      hall r0 (by rw [hrows]; exact List.mem_cons_self r0 rest)
    have huni : ∀ r ∈ rest, r.length = r0.length := by
      intro r hr
      rw [hall r (by rw [hrows]; exact List.mem_cons_of_mem r0 hr), hr0len]
    rw [from_rows_cons_uniform r0 rest g.filler huni, hr0len, ← hrows, hflat]

theorem from_columns_columns_iter (g : DenseGrid T) (hw : 0 < g.width)
    (hne : g.items ≠ []) (hmul : g.items.length % g.width = 0) :
    ∃ cols, g.columns_iter = some cols ∧
      DenseGrid.from_columns cols g.filler = some (Except.ok g) := by
  have hdvd : g.width ∣ g.items.length := Nat.dvd_of_mod_eq_zero hmul
  have hlen : g.height * g.width = g.items.length := by
    unfold height
    exact Nat.div_mul_cancel hdvd
  have hlenpos : 0 < g.items.length := List.length_pos.mpr hne
  have hh : 0 < g.height := by
    rcases Nat.eq_zero_or_pos g.height with h0 | h1
    · rw [h0, Nat.zero_mul] at hlen
      omega
    · exact h1
  have hflat : g.rows_iter.flatten = g.items := by
    unfold rows_iter
    rw [flatten_row_slices g.items g.width g.height, hlen]
    exact List.take_length g.items
  obtain ⟨cols, hcols⟩ : ∃ cols, g.columns_iter = some cols := by
    apply Option.isSome_iff_exists.mp
    unfold columns_iter
    apply optionMapList_isSome
    intro x hx
    rw [List.mem_range] at hx
    apply optionMapList_isSome
    intro y hy
    rw [List.mem_range] at hy
    rw [get_nat_coords hx hy]
    rw [List.getElem?_eq_getElem (hlen ▸ nat_index_lt hx hy)]
    rfl
  unfold columns_iter at hcols
  have hclen : cols.length = g.width := by
    rw [optionMapList_length hcols, List.length_range]
  have hcolfact : ∀ x : Nat, x < g.width → cols[x]? =
      optionMapList (fun y : Nat => g.get ⟨(x : Int), (y : Int)⟩) (List.range g.height) := by
    intro x hx
    have h1 := optionMapList_getElem hcols x
    rw [List.getElem?_range hx] at h1
    simpa using h1
  have hcollen : ∀ col ∈ cols, col.length = g.height := by
    intro col hcolmem
    rcases List.mem_iff_getElem?.mp hcolmem with ⟨x, hxcol⟩
    have hx : x < g.width := by
      by_contra hge
      rw [List.getElem?_eq_none (by omega)] at hxcol
      cases hxcol
    have h2 := hcolfact x hx
    rw [hxcol] at h2
    rw [optionMapList_length h2.symm, List.length_range]
  refine ⟨cols, by unfold columns_iter; exact hcols, ?_⟩
  rcases cols with - | ⟨c0, t⟩
  · exfalso
    simp at hclen
    omega
  · have hc0len : c0.length = g.height :=
      hcollen c0 (List.mem_cons_self c0 t)
    have huni : ∀ r ∈ t, r.length = c0.length := by
      intro r hr
      rw [hcollen r (List.mem_cons_of_mem c0 hr), hc0len]
    rcases from_columns_cons_uniform c0 t g.filler huni with ⟨out, hout, hfc⟩
    rw [hfc]
    have houtlen : out.length = g.height := by
      rw [optionMapList_length hout, List.length_range, hc0len]
    have hout_eq : out = g.rows_iter := by
      apply List.ext_getElem?
      intro i
      by_cases hi : i < g.height
      · have hic0 : i < c0.length := by omega
        have h1 := optionMapList_getElem hout i
        rw [List.getElem?_range hic0] at h1
        simp only [Option.some_bind] at h1
        have hisome : (out[i]?).isSome := by
          rw [List.getElem?_eq_getElem (by omega)]
          rfl
        rw [h1] at hisome
        rcases Option.isSome_iff_exists.mp hisome with ⟨ri, hri⟩
        rw [h1, hri, rows_iter_getElem g hi]
        congr 1
        apply List.ext_getElem?
        intro x
        have hrilen : ri.length = g.width := by
          rw [optionMapList_length hri, List.length_range]
          simpa using hclen
        by_cases hx : x < g.width
        · have hx2 : x < (c0 :: t).length := by omega
          have h2 := optionMapList_getElem hri x
          rw [List.getElem?_range hx2] at h2
          simp only [Option.some_bind] at h2
          rw [List.getElem?_eq_getElem hx2] at h2
          simp only [Option.some_bind] at h2
          have h3 := hcolfact x hx
          rw [List.getElem?_eq_getElem hx2] at h3
          have h4 := optionMapList_getElem h3.symm i
          rw [List.getElem?_range hi] at h4
          simp only [Option.some_bind] at h4
          rw [h2, h4, get_nat_coords hx hi, slice_getElem hx]
        · rw [List.getElem?_eq_none (by omega),
            List.getElem?_eq_none (by rw [List.length_take, List.length_drop]; omega)]
      · rw [List.getElem?_eq_none (by omega),
          List.getElem?_eq_none (by rw [rows_iter_length]; omega)]
    rw [hout_eq, hflat]
    have hctlen : (c0 :: t).length = g.width := hclen
    rw [hctlen]

end DenseGrid

/-- C3: for every grid with positive width and a non-empty buffer whose
length is an exact multiple of the width, `from_rows` applied to the output
of `rows_iter` succeeds and rebuilds the original grid exactly, and
`columns_iter` succeeds and `from_columns` applied to its output (with the
same filler) rebuilds the original grid exactly. -/
theorem DenseGrid.round_trip_rows_columns {T : Type} (g : DenseGrid T)
    (hw : 0 < g.width) (hne : g.items ≠ []) (hmul : g.items.length % g.width = 0) :
    DenseGrid.from_rows g.rows_iter g.filler = some (Except.ok g) ∧
    ∃ cols, g.columns_iter = some cols ∧
      DenseGrid.from_columns cols g.filler = some (Except.ok g) :=
  ⟨DenseGrid.from_rows_rows_iter g hw hne hmul,
   DenseGrid.from_columns_columns_iter g hw hne hmul⟩

/-- C3 witness: the 2x2 grid `[1, 2, 3, 4]` survives the rows round-trip. -/
theorem DenseGrid.round_trip_rows_columns_witness :
    DenseGrid.from_rows (⟨2, none, [1, 2, 3, 4]⟩ : DenseGrid Nat).rows_iter none =
      some (Except.ok (⟨2, none, [1, 2, 3, 4]⟩ : DenseGrid Nat)) := by
  have h := DenseGrid.round_trip_rows_columns (⟨2, none, [1, 2, 3, 4]⟩ : DenseGrid Nat)
    (by decide) (by decide) (by decide)
  exact h.1
